import Mathlib

set_option maxRecDepth 8192

set_option maxHeartbeats 1600000

/-!
Verification development for the FlipAgent agentic tool-orchestration core
(`src/agent/index.ts` in the repository): the conversation normalizer
`ensureAlternatingRoles`, the tool selector `selectTools`, the tool executor
dispatch `executeTool`, and the agentic loop inside `handleMessage`.

The TypeScript source is shallowly embedded: pure functions become Lean
functions, the `while` loop becomes fuel-based recursion (fuel = remaining
iterations below the cap), external collaborators (the Anthropic model call,
the platform adapters, the credential store effects, the database) become
explicit oracle parameters that may fail (`Except String _` models a thrown
JS exception carrying its message).
-/

/- == String utilities: `String.prototype.includes` ====================== -/
/-- Does `pat` occur at the head of `l`? Models the anchored part of a
JavaScript substring test. -/
def leadMatch : List Char → List Char → Bool
  | _, [] => true
  | [], _ :: _ => false
  | c :: cs, d :: ds => c == d && leadMatch cs ds

/-- Does `pat` occur anywhere in `l`? -/
def hasSubList (l pat : List Char) : Bool :=
  match l with
  | [] => leadMatch [] pat
  | _ :: t => leadMatch l pat || hasSubList t pat

/-- Model of JavaScript `s.includes(pat)`. -/
def strIncludes (s pat : String) : Bool :=
  hasSubList s.toList pat.toList

/- == Message / content model =========================================== -/
/-- Chat roles of the Anthropic message protocol. -/
inductive Role where
  | user
  | assistant
deriving DecidableEq, Repr

/-- Tool input object (`Record<string, unknown>` in the source); modelled as
a string-keyed map whose values no embedded claim inspects: an invocation
input flows opaquely into the executor and the delegated handlers. -/
abbrev ToolInput := List (String × String)

/-- A JSON-like payload value, as produced by the tool executor. -/
inductive Value where
  | vStr (s : String)
  | vNat (n : Nat)
  | vBool (b : Bool)
  | vNull
  | vArr (xs : List Value)
  | vObj (fields : List (String × Value))

/-- A content block of an assistant API response: a text block or a
`tool_use` block (`{id, name, input}`). -/
inductive ContentBlock where
  | text (t : String)
  | toolUse (id name : String) (input : ToolInput)
deriving DecidableEq, Repr

/-- A `tool_result` block (`{type: 'tool_result', tool_use_id, content}`).
The source serializes `content` with `JSON.stringify`; the serialization to a
wire string is elided here (no embedded claim inspects it), the pre-serialized
payload is kept. -/
structure ToolResultB where
  tool_use_id : String
  content : Value

/-- Message content: a plain string, assistant content blocks, or the
tool-result blocks of the synthetic user turn that follows tool execution.
The source types all three as `string | ContentBlock[]`; the normalizer only
distinguishes string from non-string content. -/
inductive MsgContent where
  | str (s : String)
  | blocks (bs : List ContentBlock)
  | results (rs : List ToolResultB)

/-- Is this plain-text (`typeof content === 'string'`) content? -/
def MsgContent.isStr : MsgContent → Bool
  | .str _ => true
  | _ => false

/-- One transcript turn (`Anthropic.MessageParam`). -/
structure MessageParam where
  role : Role
  content : MsgContent

/- == Conversation normalizer: ensureAlternatingRoles ==================== -/
/-- One step of the `for (const msg of messages)` loop of
`ensureAlternatingRoles`. The accumulator holds the `result` array in
reverse (most recently pushed turn first); the source pushes to the end and
mutates `result[result.length - 1]` in place.
If the previous output turn has the same role: merge when both contents are
strings (join with a newline), otherwise `continue` without pushing (the
current turn is dropped, per the source comment "for simplicity we leave the
last one"). Different role: push a copy of the turn. -/
def pushRev (acc : List MessageParam) (msg : MessageParam) : List MessageParam :=
  match acc with
  | [] => msg :: []
  | last :: rest =>
    if last.role = msg.role then
      match last.content, msg.content with
      | .str a, .str b => ⟨last.role, .str (a ++ "\n" ++ b)⟩ :: rest
      | _, _ => last :: rest
    else
      msg :: last :: rest

/-- Embedding of `ensureAlternatingRoles` from the source: merge consecutive same-role
plain-text turns, then prepend a synthetic `(conversation start)` user turn
when the first turn is not from the user. (The trailing "ensure last message
is from user" block of the source is an empty defensive check and performs
nothing.) -/
def ensureAlternatingRoles (messages : List MessageParam) : List MessageParam :=
  if messages.isEmpty then [] else
  let result := (messages.foldl pushRev []).reverse
  match result with
  | [] => []
  | first :: _ =>
    if first.role = .user then result
    else ⟨.user, .str "(conversation start)"⟩ :: result

/-- Adjacent-role distinctness, stated on the reversed accumulator. -/
abbrev rolesAlt (l : List MessageParam) : Prop :=
  l.Chain' (fun a b => a.role ≠ b.role)

/- == Agentic loop inside handleMessage ================================= -/
/-- Stop reason of an Anthropic response. -/
inductive StopReason where
  | endTurn
  | toolUse
  | maxTokens
  | stopSequence
deriving DecidableEq, Repr

/-- A fully-assembled model response (`Anthropic.Message`): content blocks
plus a stop reason. -/
structure ApiResponse where
  content : List ContentBlock
  stop_reason : StopReason

/-- Outcome of one `client.messages.stream(...).finalMessage()` call:
either a response or a thrown error carrying its message. The model is an
oracle indexed by the (1-based) iteration number of the call. -/
inductive ModelOutcome where
  | ok (r : ApiResponse)
  | err (msg : String)

/-- A parsed `tool_use` block collected by the loop body. -/
structure ToolUseB where
  id : String
  name : String
  input : ToolInput
deriving DecidableEq, Repr

/-- The `textBlocks` array: text blocks of the response, in response order. -/
def collectTexts (content : List ContentBlock) : List String :=
  content.filterMap fun b =>
    match b with
    | .text t => some t
    | .toolUse _ _ _ => none

/-- The `toolUseBlocks` array: `tool_use` blocks of the response, in
response order. -/
def collectToolUses (content : List ContentBlock) : List ToolUseB :=
  content.filterMap fun b =>
    match b with
    | .text _ => none
    | .toolUse id name input => some ⟨id, name, input⟩

/-- The error payload the loop builds when `executeTool` throws
(`{ error: \x60Tool execution failed: ...\x60 }`). -/
def toolFailedPayload (errMsg : String) : Value :=
  .vObj [("error", .vStr ("Tool execution failed: " ++ errMsg))]

/-- The `toolResults` array built by the `for (const toolCall of
toolUseBlocks)` loop: one `tool_result` per invocation, in invocation order,
with `tool_use_id` equal to the invocation id. `exec` is the
`executeTool` call as an oracle (`Except.error` models a thrown exception,
which the surrounding `try/catch` converts into an error payload). -/
def buildToolResults (exec : String → ToolInput → Except String Value)
    (uses : List ToolUseB) : List ToolResultB :=
  uses.map fun tc =>
    { tool_use_id := tc.id
      content :=
        match exec tc.name tc.input with
        | .ok v => v
        | .error m => toolFailedPayload m }

/-- Fallback text for a context-length error. -/
def errTooLongText : String :=
  "I apologize, but the conversation has grown too long. Please start a new conversation with /new."

/-- Generic fallback text for a failed model call. -/
def errGenericText : String :=
  "Sorry, I encountered an error processing your request. Please try again."

/-- Classification of a thrown model-call error into a user-facing message,
from the `catch` block of the loop. -/
def classifyApiError (errMsg : String) : String :=
  if strIncludes errMsg "prompt is too long" || strIncludes errMsg "max_tokens" then
    errTooLongText
  else
    errGenericText

/-- The notice appended after the loop when the iteration counter reached
the cap. -/
def maxIterationsNotice : String :=
  "\n\n(Reached maximum tool call iterations.)"

/-- The cap `const MAX_ITERATIONS = 10`. -/
def MAX_ITERATIONS : Nat := 10

/-- State at loop exit: the final value of `iterations`, of `finalText`, and
of `currentMessages`. -/
structure LoopResult where
  iterations : Nat
  finalText : String
  messages : List MessageParam

/-- The `while (iterations < MAX_ITERATIONS)` loop of `handleMessage`,
embedded with fuel `MAX_ITERATIONS - iterations` (fuel 0 is exactly the
loop condition failing). Each iteration: call the model; on a thrown error
classify it and break; otherwise partition the content blocks; with no
`tool_use` blocks join the texts and break; otherwise execute every tool,
append the assistant turn and a user turn carrying the results, and—as a
defensive check—break with the joined text when `stop_reason` is `end_turn`
and some text block exists. `finalText` is `''` unless set by a break. -/
def loopGo (model : Nat → ModelOutcome)
    (exec : String → ToolInput → Except String Value) :
    Nat → Nat → List MessageParam → LoopResult
  | 0, iterations, msgs => ⟨iterations, "", msgs⟩
  | fuel + 1, iterations, msgs =>
    match model (iterations + 1) with
    | .err e => ⟨iterations + 1, classifyApiError e, msgs⟩
    | .ok r =>
      if (collectToolUses r.content).isEmpty then
        ⟨iterations + 1, String.intercalate "\n" (collectTexts r.content), msgs⟩
      else if r.stop_reason = .endTurn ∧ ¬(collectTexts r.content).isEmpty then
        ⟨iterations + 1, String.intercalate "\n" (collectTexts r.content),
         msgs ++ [⟨.assistant, .blocks r.content⟩,
                  ⟨.user, .results (buildToolResults exec (collectToolUses r.content))⟩]⟩
      else
        loopGo model exec fuel (iterations + 1)
          (msgs ++ [⟨.assistant, .blocks r.content⟩,
                    ⟨.user, .results (buildToolResults exec (collectToolUses r.content))⟩])

/-- The agentic loop plus the post-loop cap check of `handleMessage`: run
the loop from `iterations = 0` with the full fuel, then append the
"maximum iterations" notice when the final counter reached the cap. -/
def handleMessageLoop (model : Nat → ModelOutcome)
    (exec : String → ToolInput → Except String Value)
    (initMsgs : List MessageParam) : LoopResult :=
  if MAX_ITERATIONS ≤ (loopGo model exec MAX_ITERATIONS 0 initMsgs).iterations then
    ⟨(loopGo model exec MAX_ITERATIONS 0 initMsgs).iterations,
     (loopGo model exec MAX_ITERATIONS 0 initMsgs).finalText ++ maxIterationsNotice,
     (loopGo model exec MAX_ITERATIONS 0 initMsgs).messages⟩
  else
    loopGo model exec MAX_ITERATIONS 0 initMsgs

/-- A model response on which the loop keeps going: it requests at least one
tool and does not trigger the defensive `end_turn`-with-text break. -/
def continuesResponse (r : ApiResponse) : Prop :=
  collectToolUses r.content ≠ [] ∧
  ¬(r.stop_reason = .endTurn ∧ collectTexts r.content ≠ [])

/-- A response that requests a tool but also carries text with stop reason
`end_turn`: every response of this model requests a tool invocation. -/
def toolAndTextResponse : ApiResponse :=
  ⟨[.text "hi", .toolUse "toolu_1" "check_stock" []], .endTurn⟩

/-- A model whose every response requests a tool invocation. -/
def constToolModel : Nat → ModelOutcome := fun _ => .ok toolAndTextResponse

/-- An executor oracle that always succeeds with a null payload. -/
def noopExec : String → ToolInput → Except String Value := fun _ _ => .ok .vNull

/-- A model that always requests a tool and never ends its turn. -/
def alwaysToolModel : Nat → ModelOutcome :=
  fun _ => .ok ⟨[.toolUse "toolu_1" "check_stock" []], .toolUse⟩

/-- A model whose first call throws a context-length error. -/
def errModel : Nat → ModelOutcome :=
  fun _ => .err "Error: prompt is too long: 250000 tokens > 200000 maximum"

/-- A model that requests a tool on calls 1..9 and finishes with plain text
on call 10. -/
def nineThenDoneModel : Nat → ModelOutcome := fun j =>
  if j < 10 then .ok ⟨[.toolUse "toolu_1" "check_stock" []], .toolUse⟩
  else .ok ⟨[.text "done"], .endTurn⟩

/- == Tool registry and selector ========================================= -/
/-- Case-insensitive substring occurrence. -/
def strIncludesCI (s pat : String) : Bool :=
  hasSubList (s.toList.map Char.toLower) (pat.toList.map Char.toLower)

/-- Tool metadata (`ToolMetadata` of the registry): platform tag, category
tag (`none` = general) and the core flag. -/
structure ToolMeta where
  platform : Option String
  category : Option String
  core : Bool
deriving DecidableEq, Repr

/-- A registered tool descriptor. The `input_schema` of the source is not
consulted by any of the orchestration code embedded here and is elided. -/
structure ToolDef where
  name : String
  description : String
  meta : ToolMeta
deriving DecidableEq, Repr

/-- Modelled from the spec: `ToolRegistry.getCoreTools` of the missing
`src/agent/tool-registry.ts` — all descriptors flagged core, in registration
order (spec 4.1: "stable order = registration order"). The registry itself
is the registration-ordered descriptor list. -/
def getCoreTools (registry : List ToolDef) : List ToolDef :=
  registry.filter fun t => t.meta.core

/-- Modelled from the spec: `ToolRegistry.searchByPlatform` — descriptors
whose platform tag matches exactly, in registration order. -/
def searchByPlatform (registry : List ToolDef) (p : String) : List ToolDef :=
  registry.filter fun t => t.meta.platform == some p

/-- Modelled from the spec: `ToolRegistry.searchByCategory` — descriptors
whose category tag matches exactly, in registration order. -/
def searchByCategory (registry : List ToolDef) (c : String) : List ToolDef :=
  registry.filter fun t => t.meta.category == some c

/-- Modelled from the spec: `ToolRegistry.search` (spec 4.1) —
case-insensitive substring match against name+description when a query is
given, AND-combined with optional exact platform/category filters. -/
def registrySearch (registry : List ToolDef)
    (query platform category : Option String) : List ToolDef :=
  registry.filter fun t =>
    (match query with
     | none => true
     | some q => strIncludesCI t.name q || strIncludesCI t.description q) &&
    (match platform with
     | none => true
     | some p => t.meta.platform == some p) &&
    (match category with
     | none => true
     | some c => t.meta.category == some c)

/-- Platform / category hints detected in a user message. -/
structure ToolHints where
  platforms : List String
  categories : List String
deriving DecidableEq, Repr

/-- The platform tags of the system. -/
def platformTags : List String := ["amazon", "ebay", "walmart", "aliexpress"]

/-- Modelled from the spec: the keyword table of the hint detector
(spec 4.2 gives the rule shape and examples: occurrence of "ebay" is a
platform hint, "profit"/"margin" a hint for category analytics); category
names are the category enum of the `tool_search` schema in the source. -/
def categoryKeywordTable : List (String × List String) :=
  [("scanning", ["scan", "search", "find"]),
   ("pricing", ["price", "fee", "cost"]),
   ("analytics", ["profit", "margin", "report", "analytics"]),
   ("listing", ["listing", "sell"]),
   ("fulfillment", ["order", "ship", "track"]),
   ("admin", ["credential", "setup"])]

/-- Modelled from the spec: `detectToolHints` of the missing
`src/agent/tool-registry.ts` — keyword matching over the message text
returning the platform tags and category tags present. -/
def detectToolHints (text : String) : ToolHints :=
  ⟨platformTags.filter (fun p => strIncludesCI text p),
   categoryKeywordTable.filterMap fun kv =>
     if kv.2.any (fun k => strIncludesCI text k) then some kv.1 else none⟩

/-- The cap `const MAX_TOOLS = 50` of `selectTools`. -/
def MAX_TOOLS : Nat := 50

/-- Does the selected set already hold a tool of this name? (`Map` key
lookup in the source.) -/
def containsName (sel : List ToolDef) (n : String) : Bool :=
  sel.any fun t => t.name == n

/-- Embedding of `selected.set(tool.name, tool)` on the insertion-ordered map: an
existing key keeps its position and gets the new value, a new key is
appended. -/
def mapSet (sel : List ToolDef) (t : ToolDef) : List ToolDef :=
  if containsName sel t.name then
    sel.map fun s => if s.name == t.name then t else s
  else
    sel ++ [t]

/-- The inner `for` loop of `selectTools` over one matched tool list: stop
adding once the cap is reached (the `break` leaves the list untouched from
then on, since a skipped step never grows the set). -/
def addCapped (sel : List ToolDef) (tools : List ToolDef) : List ToolDef :=
  tools.foldl (fun acc t => if MAX_TOOLS ≤ acc.length then acc else mapSet acc t) sel

/-- Embedding of `selectTools` from the source: seed with every core tool (uncapped),
then add platform-matched and category-matched tools for each detected
hint, capped at `MAX_TOOLS`; the result keeps first-insertion order. -/
def selectTools (registry : List ToolDef) (messageText : String) : List ToolDef :=
  (detectToolHints messageText).categories.foldl
    (fun sel c => addCapped sel (searchByCategory registry c))
    ((detectToolHints messageText).platforms.foldl
      (fun sel p => addCapped sel (searchByPlatform registry p))
      ((getCoreTools registry).foldl mapSet []))

/-- Modelled from the spec: `CORE_TOOL_NAMES` of the missing
`src/agent/tool-registry.ts` — the meta tool and the credential tools,
matching the source's "(core)" section comments in `defineTools`. -/
def CORE_TOOL_NAMES : List String :=
  ["setup_amazon_credentials", "setup_ebay_credentials",
   "setup_walmart_credentials", "setup_aliexpress_credentials",
   "list_credentials", "delete_credentials", "tool_search"]

/-- Modelled from the spec: the platform half of `inferToolMetadata` — a
deterministic, total keyword classifier over the tool name (spec 4.1 leaves
the exact rules as an implementation choice). -/
def inferPlatform (name : String) : Option String :=
  platformTags.find? fun p => strIncludes name p

/-- Modelled from the spec: the category half of `inferToolMetadata` — a
prioritized, deterministic, total keyword rule list over the tool name. -/
def inferCategory (name : String) : Option String :=
  if strIncludes name "scan" || strIncludes name "search" then some "scanning"
  else if strIncludes name "credential" then some "admin"
  else if strIncludes name "listing" || strIncludes name "list" then some "listing"
  else if strIncludes name "price" || strIncludes name "fee" then some "pricing"
  else if strIncludes name "order" || strIncludes name "ship"
       || strIncludes name "track" then some "fulfillment"
  else if strIncludes name "profit" || strIncludes name "report"
       || strIncludes name "analysis" then some "analytics"
  else none

/-- The 88 tool names of `defineTools`, in definition order (names taken
from the source; descriptions and input schemas elided — only the free-text
registry search reads descriptions, and no claim exercises it on this
registry). -/
def defineToolNames : List String :=
  ["scan_amazon", "scan_ebay", "scan_walmart", "scan_aliexpress",
   "compare_prices", "find_arbitrage", "match_products", "get_product_details",
   "check_stock", "get_price_history", "create_ebay_listing",
   "create_amazon_listing", "update_listing_price", "optimize_listing",
   "bulk_list", "pause_listing", "resume_listing", "delete_listing",
   "check_orders", "auto_purchase", "track_shipment", "update_tracking",
   "handle_return", "calculate_profit", "daily_report", "profit_dashboard",
   "top_opportunities", "category_analysis", "competitor_watch",
   "fee_calculator", "setup_amazon_credentials", "setup_ebay_credentials",
   "setup_walmart_credentials", "setup_aliexpress_credentials",
   "list_credentials", "delete_credentials", "get_shipping_cost",
   "get_hot_products", "get_aliexpress_categories", "get_product_variations",
   "browse_amazon_categories", "ebay_get_policies", "ebay_create_policy",
   "ebay_category_suggest", "ebay_item_aspects", "ebay_get_inventory",
   "ebay_bulk_update", "ebay_issue_refund", "walmart_upc_lookup",
   "walmart_trending", "walmart_taxonomy", "get_ds_order_status",
   "amazon_sp_search_catalog", "amazon_sp_get_pricing",
   "amazon_sp_estimate_fees", "amazon_sp_create_listing",
   "amazon_sp_get_orders", "amazon_sp_get_fba_inventory",
   "ebay_get_transactions", "ebay_get_payouts", "ebay_funds_summary",
   "ebay_traffic_report", "ebay_seller_metrics", "ebay_create_campaign",
   "ebay_get_campaigns", "ebay_promote_listings", "keepa_price_history",
   "keepa_deals", "keepa_bestsellers", "keepa_track_product",
   "get_shipping_rates", "buy_shipping_label", "track_package",
   "verify_address", "setup_amazon_sp_credentials", "setup_keepa_credentials",
   "setup_easypost_credentials", "walmart_get_seller_items",
   "walmart_update_price", "walmart_update_inventory", "walmart_get_orders",
   "walmart_ship_order", "walmart_retire_item", "walmart_get_inventory",
   "batch_reprice", "inventory_sync", "setup_walmart_seller_credentials",
   "tool_search"]

/-- The registry built at startup: `defineTools()` plus the metadata
application loop of the source (`inferred` metadata plus
`core: CORE_TOOL_NAMES.has(tool.name)`), registered in definition order. -/
def flipAgentRegistry : List ToolDef :=
  defineToolNames.map fun n =>
    { name := n
      description := ""
      meta :=
        { platform := inferPlatform n
          category := inferCategory n
          core := CORE_TOOL_NAMES.contains n } }

/-- A registry of 51 distinct tools, all flagged core. -/
def bigCoreRegistry : List ToolDef :=
  (List.range 51).map fun i =>
    { name := Nat.repr i, description := "", meta := ⟨none, none, true⟩ }

/-- A small registry with one core and one platform-tagged tool. -/
def smallRegistry : List ToolDef :=
  [{ name := "tool_search", description := "", meta := ⟨none, none, true⟩ },
   { name := "scan_amazon", description := "",
     meta := ⟨some "amazon", some "scanning", false⟩ }]

/- == Tool executor dispatch: executeTool ================================ -/
/-- A stored credential object: string-keyed fields whose values may be
absent (`undefined` in the source's loosely typed credential data). -/
abbrev Creds := List (String × Option String)

/-- Field access `input.<key>` on a tool input object. -/
def inputGet (input : ToolInput) (k : String) : Option String :=
  (input.find? fun p => p.1 == k).map fun p => p.2

/-- The executor's effect context: the registry, the per-user credential
store (spec 6: synchronous, read-only `get`), and the external
collaborators as oracles — credential-store writes, the four platform
adapters' `search` (`createXAdapter(creds).search(...)` composed with the
args built from the input), the database write `storeResults`, and the
bodies of the remaining per-tool cases, which the spec scopes as external
collaborators specified at the contract level only (spec 2: "the ~100
individual handlers are external collaborators"). An `Except.error` models
a thrown exception. -/
structure ExecCtx where
  registry : List ToolDef
  getCredentials : String → Option Creds
  setCredentials : String → Creds → Except String Unit
  deleteCredentials : String → Except String Unit
  listUserPlatforms : List String
  amazonSearch : ToolInput → Except String (List Value)
  ebaySearch : ToolInput → Except String (List Value)
  walmartSearch : ToolInput → Except String (List Value)
  aliexpressSearch : ToolInput → Except String (List Value)
  storeResults : List Value → Except String Unit
  handler : String → ToolInput → Except String Value

/-- Embedding of `getUserCreds` from the source: per-platform credential lookup, with
keepa stored under amazon and easypost stored under ebay. -/
structure UserCreds where
  amazon : Option Creds
  ebay : Option Creds
  walmart : Option Creds
  aliexpress : Option Creds
  keepa : Option Creds
  easypost : Option Creds

def getUserCreds (ctx : ExecCtx) : UserCreds :=
  { amazon := ctx.getCredentials "amazon"
    ebay := ctx.getCredentials "ebay"
    walmart := ctx.getCredentials "walmart"
    aliexpress := ctx.getCredentials "aliexpress"
    keepa := ctx.getCredentials "amazon"
    easypost := ctx.getCredentials "ebay" }

/-- Payload with status 'error' and a message. -/
def credsErrorPayload (msg : String) : Value :=
  .vObj [("status", .vStr "error"), ("message", .vStr msg)]

/-- Payload with status 'ok' and a message. -/
def okMsgPayload (msg : String) : Value :=
  .vObj [("status", .vStr "ok"), ("message", .vStr msg)]

/-- The default-arm payload `{ error: Unknown tool: <name> }`. -/
def unknownToolPayload (toolName : String) : Value :=
  .vObj [("error", .vStr ("Unknown tool: " ++ toolName))]

/-- Payload with status 'ok', results and count, of the scan cases. -/
def scanOkPayload (results : List Value) : Value :=
  .vObj [("status", .vStr "ok"), ("results", .vArr results),
         ("count", .vNat results.length)]

/-- The `tool_search` payload: the first 20 matches projected to
name/description/platform/category (missing tags render as "general"),
plus the total match count. -/
def toolSearchPayload (results : List ToolDef) : Value :=
  .vObj [("tools", .vArr ((results.take 20).map fun t =>
           .vObj [("name", .vStr t.name),
                  ("description", .vStr t.description),
                  ("platform", .vStr (t.meta.platform.getD "general")),
                  ("category", .vStr (t.meta.category.getD "general"))])),
         ("total", .vNat results.length)]

/-- The shared body of the four `scan_*` cases: return the structured
not-configured error when the platform credentials are absent; otherwise
call the adapter's search, store the results, and return the ok payload. -/
def scanCase (cred : Option Creds) (notConfiguredMsg : String)
    (search : ToolInput → Except String (List Value))
    (store : List Value → Except String Unit) (input : ToolInput) :
    Except String Value :=
  match cred with
  | none => .ok (credsErrorPayload notConfiguredMsg)
  | some _ => do
      let results ← search input
      store results
      pure (scanOkPayload results)

/-- The shared body of the `setup_*_credentials` cases: store the
credential data, then report success. -/
def setupCase (store : String → Creds → Except String Unit)
    (platform : String) (credData : Creds) (okMsg : String) :
    Except String Value := do
  store platform credData
  pure (okMsgPayload okMsg)

/-- The 77 tool names of `executeTool` cases other than the meta,
credential, and scan cases, in switch order. Each of their bodies is one
platform-wrapper/database composition that the spec scopes as an external
collaborator specified only at the contract level, so the embedding
dispatches them to the `handler` oracle of the context. -/
def handlerToolNames : List String :=
  ["compare_prices", "find_arbitrage", "match_products",
   "get_product_details", "check_stock", "get_price_history",
   "create_ebay_listing", "create_amazon_listing", "update_listing_price",
   "optimize_listing", "bulk_list", "pause_listing", "resume_listing",
   "delete_listing", "check_orders", "auto_purchase", "track_shipment",
   "update_tracking", "handle_return", "calculate_profit", "daily_report",
   "profit_dashboard", "top_opportunities", "category_analysis",
   "competitor_watch", "fee_calculator", "get_shipping_cost",
   "get_hot_products", "get_aliexpress_categories", "get_product_variations",
   "browse_amazon_categories", "ebay_get_policies", "ebay_create_policy",
   "ebay_category_suggest", "ebay_item_aspects", "ebay_get_inventory",
   "ebay_bulk_update", "ebay_issue_refund", "walmart_upc_lookup",
   "walmart_trending", "walmart_taxonomy", "get_ds_order_status",
   "amazon_sp_search_catalog", "amazon_sp_get_pricing",
   "amazon_sp_estimate_fees", "amazon_sp_create_listing",
   "amazon_sp_get_orders", "amazon_sp_get_fba_inventory",
   "ebay_get_transactions", "ebay_get_payouts", "ebay_funds_summary",
   "ebay_traffic_report", "ebay_seller_metrics", "ebay_create_campaign",
   "ebay_get_campaigns", "ebay_promote_listings", "keepa_price_history",
   "keepa_deals", "keepa_bestsellers", "keepa_track_product",
   "get_shipping_rates", "buy_shipping_label", "track_package",
   "verify_address", "setup_amazon_sp_credentials", "setup_keepa_credentials",
   "setup_easypost_credentials", "setup_walmart_seller_credentials",
   "walmart_get_seller_items", "walmart_update_price",
   "walmart_update_inventory", "walmart_get_inventory", "walmart_get_orders",
   "walmart_ship_order", "walmart_retire_item", "batch_reprice",
   "inventory_sync"]

/-- The 88 tool names with a dedicated `case` in `executeTool`, in switch
order: the fully embedded meta/credential/scan cases followed by the
contract-level cases. -/
def knownToolNames : List String :=
  ["tool_search", "setup_amazon_credentials", "setup_ebay_credentials",
   "setup_walmart_credentials", "setup_aliexpress_credentials",
   "list_credentials", "delete_credentials", "scan_amazon", "scan_ebay",
   "scan_walmart", "scan_aliexpress"] ++ handlerToolNames

/-- Embedding of `executeTool` from the source: the big `switch (toolName)`, rendered as
the equivalent first-match chain over the mutually distinct case labels.
The meta, credential, and scan cases are embedded in full; the remaining 77
cases dispatch to the `handler` oracle (see `handlerToolNames`); the
`default` arm returns the unknown-tool error payload. -/
def executeTool (ctx : ExecCtx) (toolName : String) (input : ToolInput) :
    Except String Value :=
  if toolName = "tool_search" then
      .ok (toolSearchPayload (registrySearch ctx.registry
        (inputGet input "query") (inputGet input "platform")
        (inputGet input "category")))
  else if toolName = "setup_amazon_credentials" then
      setupCase ctx.setCredentials "amazon"
        [("accessKeyId", inputGet input "accessKeyId"),
         ("secretAccessKey", inputGet input "secretAccessKey"),
         ("partnerTag", inputGet input "partnerTag"),
         ("marketplace", some ((inputGet input "marketplace").getD "US"))]
        "Amazon credentials saved and encrypted."
  else if toolName = "setup_ebay_credentials" then
      setupCase ctx.setCredentials "ebay"
        [("clientId", inputGet input "clientId"),
         ("clientSecret", inputGet input "clientSecret"),
         ("refreshToken", inputGet input "refreshToken"),
         ("environment", some ((inputGet input "environment").getD "production"))]
        "eBay credentials saved and encrypted."
  else if toolName = "setup_walmart_credentials" then
      setupCase ctx.setCredentials "walmart"
        [("clientId", inputGet input "clientId"),
         ("clientSecret", inputGet input "clientSecret")]
        "Walmart credentials saved and encrypted."
  else if toolName = "setup_aliexpress_credentials" then
      setupCase ctx.setCredentials "aliexpress"
        [("appKey", inputGet input "appKey"),
         ("appSecret", inputGet input "appSecret")]
        "AliExpress credentials saved and encrypted."
  else if toolName = "list_credentials" then
      .ok (.vObj [("status", .vStr "ok"),
        ("platforms", .vArr (ctx.listUserPlatforms.map .vStr)),
        ("message", .vStr (if 0 < ctx.listUserPlatforms.length then
            "Configured platforms: " ++ String.intercalate ", " ctx.listUserPlatforms
          else
            "No platform credentials configured yet."))])
  else if toolName = "delete_credentials" then do
      ctx.deleteCredentials ((inputGet input "platform").getD "undefined")
      pure (okMsgPayload
        ("Credentials for " ++ (inputGet input "platform").getD "undefined" ++ " deleted."))
  else if toolName = "scan_amazon" then
      scanCase (getUserCreds ctx).amazon
        "Amazon credentials not configured. Use setup_amazon_credentials first."
        ctx.amazonSearch ctx.storeResults input
  else if toolName = "scan_ebay" then
      scanCase (getUserCreds ctx).ebay
        "eBay credentials not configured. Use setup_ebay_credentials first."
        ctx.ebaySearch ctx.storeResults input
  else if toolName = "scan_walmart" then
      scanCase (getUserCreds ctx).walmart
        "Walmart credentials not configured. Use setup_walmart_credentials first."
        ctx.walmartSearch ctx.storeResults input
  else if toolName = "scan_aliexpress" then
      scanCase (getUserCreds ctx).aliexpress
        "AliExpress credentials not configured. Use setup_aliexpress_credentials first."
        ctx.aliexpressSearch ctx.storeResults input
  else if toolName ∈ handlerToolNames then
      ctx.handler toolName input
  else
      .ok (unknownToolPayload toolName)

/- == Executor lemmas and claims ========================================= -/
/-- Did this call return (rather than throw)? -/
def exOk {α : Type} : Except String α → Bool
  | .ok _ => true
  | .error _ => false

/-- An execution context whose user has Amazon credentials but whose Amazon
adapter search throws a network error. -/
def throwingAmazonCtx : ExecCtx :=
  { registry := []
    getCredentials := fun p => if p == "amazon" then some [] else none
    setCredentials := fun _ _ => .ok ()
    deleteCredentials := fun _ => .ok ()
    listUserPlatforms := []
    amazonSearch := fun _ => .error "network error: ECONNRESET"
    ebaySearch := fun _ => .ok []
    walmartSearch := fun _ => .ok []
    aliexpressSearch := fun _ => .ok []
    storeResults := fun _ => .ok ()
    handler := fun _ _ => .ok .vNull }

/-- An execution context with no stored credentials whose effect oracles all
succeed. -/
def totalOkCtx : ExecCtx :=
  { registry := smallRegistry
    getCredentials := fun _ => none
    setCredentials := fun _ _ => .ok ()
    deleteCredentials := fun _ => .ok ()
    listUserPlatforms := []
    amazonSearch := fun _ => .ok []
    ebaySearch := fun _ => .ok []
    walmartSearch := fun _ => .ok []
    aliexpressSearch := fun _ => .ok []
    storeResults := fun _ => .ok ()
    handler := fun _ _ => .ok .vNull }

/-! Theorems: the claims C1 to C10 about the embedded code, their helper
lemmas, witnesses, and counterexamples. -/

/- == Normalizer lemmas ================================================== -/
/-- The merge loop never produces an empty array from a nonempty one. -/
theorem pushRev_ne_nil (acc : List MessageParam) (msg : MessageParam) :
    pushRev acc msg ≠ [] := by
  unfold pushRev
  cases acc with
  | nil => simp
  | cons last rest =>
    dsimp only
    split
    · cases last.content <;> cases msg.content <;> simp
    · simp

theorem foldl_pushRev_ne_nil (msgs : List MessageParam) (acc : List MessageParam)
    (h : acc ≠ [] ∨ msgs ≠ []) : msgs.foldl pushRev acc ≠ [] := by
  induction msgs generalizing acc with
  | nil => simpa using h.resolve_right (by simp)
  | cons m t ih =>
    simp only [List.foldl_cons]
    exact ih (pushRev acc m) (Or.inl (pushRev_ne_nil acc m))

theorem pushRev_rolesAlt {acc : List MessageParam} (h : rolesAlt acc)
    (msg : MessageParam) : rolesAlt (pushRev acc msg) := by
  unfold pushRev
  cases acc with
  | nil => simp [rolesAlt]
  | cons last rest =>
    dsimp only
    split
    · rename_i hrole
      cases hc : last.content <;> cases hc2 : msg.content <;>
        simp only [rolesAlt, List.chain'_cons'] at h ⊢ <;>
        exact ⟨fun y hy => h.1 y hy, h.2⟩
    · rename_i hrole
      simp only [rolesAlt, List.chain'_cons'] at h ⊢
      refine ⟨fun y hy => ?_, fun y hy => h.1 y hy, h.2⟩
      simp only [List.head?_cons, Option.mem_def, Option.some.injEq] at hy
      subst hy
      exact fun heq => hrole heq.symm

theorem foldl_pushRev_rolesAlt (msgs : List MessageParam) (acc : List MessageParam)
    (h : rolesAlt acc) : rolesAlt (msgs.foldl pushRev acc) := by
  induction msgs generalizing acc with
  | nil => simpa using h
  | cons m t ih => exact ih (pushRev acc m) (pushRev_rolesAlt h m)

theorem ensureAlternatingRoles_rolesAlt (msgs : List MessageParam) :
    rolesAlt (ensureAlternatingRoles msgs) := by
  unfold ensureAlternatingRoles
  split
  · simp [rolesAlt]
  · have halt : rolesAlt ((msgs.foldl pushRev []).reverse) := by
      have := foldl_pushRev_rolesAlt msgs [] (by simp [rolesAlt])
      simpa [rolesAlt, List.chain'_reverse, flip] using
        (List.chain'_reverse.mpr (by
          simpa [flip] using this.imp (fun {a b} hab => (fun h => hab h.symm))))
    cases hr : (msgs.foldl pushRev []).reverse with
    | nil => simp [rolesAlt]
    | cons first rest =>
      dsimp only
      split
      · rw [← hr]; exact halt
      · rename_i hne
        rw [hr] at halt
        simp only [rolesAlt, List.chain'_cons'] at halt ⊢
        refine ⟨fun y hy => ?_, halt⟩
        simp only [List.head?_cons, Option.mem_def, Option.some.injEq] at hy
        subst hy
        exact fun heq => hne heq.symm

theorem ensureAlternatingRoles_ne_nil (msgs : List MessageParam) (h : msgs ≠ []) :
    ensureAlternatingRoles msgs ≠ [] := by
  have hne := foldl_pushRev_ne_nil msgs [] (Or.inr h)
  have hrevne : (msgs.foldl pushRev []).reverse ≠ [] := by simpa using hne
  unfold ensureAlternatingRoles
  rw [if_neg (by simpa using h)]
  cases hr : (msgs.foldl pushRev []).reverse with
  | nil => exact absurd hr hrevne
  | cons first rest =>
    dsimp only
    split <;> simp

theorem ensureAlternatingRoles_head_user (msgs : List MessageParam) :
    ∀ f ∈ (ensureAlternatingRoles msgs).head?, f.role = Role.user := by
  unfold ensureAlternatingRoles
  split
  · simp
  · cases hr : (msgs.foldl pushRev []).reverse with
    | nil => simp
    | cons first rest =>
      dsimp only
      split
      · rename_i hu
        intro f hf
        simp only [List.head?_cons, Option.mem_def, Option.some.injEq] at hf
        subst hf
        exact hu
      · intro f hf
        simp only [List.head?_cons, Option.mem_def, Option.some.injEq] at hf
        subst hf
        rfl

/-- C4: for every input list of turns, `ensureAlternatingRoles` returns a
list that is non-empty whenever the input is non-empty, whose first turn has
role `user`, and which contains no two consecutive turns of identical role
whose contents are both plain text (in fact no two consecutive turns of
identical role at all). -/
theorem normalizer_nonempty_user_first_alternating (msgs : List MessageParam)
    (h : msgs ≠ []) :
    ensureAlternatingRoles msgs ≠ [] ∧
    (∀ f ∈ (ensureAlternatingRoles msgs).head?, f.role = Role.user) ∧
    (ensureAlternatingRoles msgs).Chain'
      (fun a b => ¬(a.role = b.role ∧ a.content.isStr = true ∧ b.content.isStr = true)) :=
  ⟨ensureAlternatingRoles_ne_nil msgs h,
   ensureAlternatingRoles_head_user msgs,
   List.Chain'.imp (fun _ _ hab hc => hab hc.1) (ensureAlternatingRoles_rolesAlt msgs)⟩

/-- Witness for the C4 theorem at a concrete two-turn transcript. -/
theorem normalizer_nonempty_user_first_alternating_witness :
    let tin := [MessageParam.mk .assistant (.str "hello"),
                MessageParam.mk .user (.str "hi")]
    ensureAlternatingRoles tin ≠ [] ∧
    (∀ f ∈ (ensureAlternatingRoles tin).head?, f.role = Role.user) ∧
    (ensureAlternatingRoles tin).Chain'
      (fun a b => ¬(a.role = b.role ∧ a.content.isStr = true ∧ b.content.isStr = true)) :=
  normalizer_nonempty_user_first_alternating _ (by simp)

/-- C5 fails on the code: two consecutive same-role turns where the second
has structured-block content; the normalizer drops the second turn instead
of appending it, so its content is not preserved. -/
theorem normalizer_drops_structured_counterexample :
    ensureAlternatingRoles
        [MessageParam.mk .user (.str "a"),
         MessageParam.mk .user (.blocks [ContentBlock.toolUse "toolu_1" "tool_search" []])]
      = [MessageParam.mk .user (.str "a")] ∧
    (ensureAlternatingRoles
        [MessageParam.mk .user (.str "a"),
         MessageParam.mk .user (.blocks [ContentBlock.toolUse "toolu_1" "tool_search" []])]).length
      = 1 := by
  constructor <;> rfl

/-- C5 amended: when the current turn's role equals the previous output
turn's role and either of the two contents is structured (non-plain-text),
the merge step keeps the previous output array unchanged: the current turn is
skipped (dropped), not appended, and only the previous turn's content
survives. -/
theorem normalizer_same_role_structured_skips (last : MessageParam)
    (rest : List MessageParam) (msg : MessageParam)
    (hrole : last.role = msg.role)
    (hstr : ¬(last.content.isStr = true ∧ msg.content.isStr = true)) :
    pushRev (last :: rest) msg = last :: rest := by
  obtain ⟨lr, lc⟩ := last
  obtain ⟨mr, mc⟩ := msg
  cases lc <;> cases mc <;> simp_all [pushRev, MsgContent.isStr]

/-- Witness for the C5 amended theorem at a concrete pair of turns. -/
theorem normalizer_same_role_structured_skips_witness :
    pushRev [MessageParam.mk .user (.blocks [ContentBlock.text "x"])]
        (MessageParam.mk .user (.str "y"))
      = [MessageParam.mk .user (.blocks [ContentBlock.text "x"])] :=
  normalizer_same_role_structured_skips _ [] _ rfl (by simp [MsgContent.isStr])

/- == Loop lemmas ======================================================== -/
/-- The loop increments the counter at most once per unit of fuel. -/
theorem loopGo_iterations_le (model : Nat → ModelOutcome)
    (exec : String → ToolInput → Except String Value) :
    ∀ (fuel iters : Nat) (msgs : List MessageParam),
      (loopGo model exec fuel iters msgs).iterations ≤ iters + fuel := by
  intro fuel
  induction fuel with
  | zero => intro iters msgs; simp [loopGo]
  | succ f ih =>
    intro iters msgs
    rw [loopGo]
    cases model (iters + 1) with
    | err e => simp
    | ok r =>
      dsimp only
      split
      · simp
      · split
        · simp
        · calc (loopGo model exec f (iters + 1) _).iterations
              ≤ (iters + 1) + f := ih (iters + 1) _
            _ ≤ iters + (f + 1) := by omega

/-- The loop only ever appends to `currentMessages`. -/
theorem loopGo_messages_grow (model : Nat → ModelOutcome)
    (exec : String → ToolInput → Except String Value) :
    ∀ (fuel iters : Nat) (msgs : List MessageParam),
      ∃ t, (loopGo model exec fuel iters msgs).messages = msgs ++ t := by
  intro fuel
  induction fuel with
  | zero => intro iters msgs; exact ⟨[], by simp [loopGo]⟩
  | succ f ih =>
    intro iters msgs
    rw [loopGo]
    cases model (iters + 1) with
    | err e => exact ⟨[], by simp⟩
    | ok r =>
      dsimp only
      split
      · exact ⟨[], by simp⟩
      · split
        · exact ⟨_, rfl⟩
        · obtain ⟨t, ht⟩ := ih (iters + 1)
            (msgs ++ [⟨.assistant, .blocks r.content⟩,
                      ⟨.user, .results (buildToolResults exec (collectToolUses r.content))⟩])
          refine ⟨[⟨.assistant, .blocks r.content⟩,
                   ⟨.user, .results (buildToolResults exec (collectToolUses r.content))⟩] ++ t, ?_⟩
          rw [ht, List.append_assoc]

/-- Unfolding one continuing iteration of the loop. -/
theorem loopGo_step_continue (model : Nat → ModelOutcome)
    (exec : String → ToolInput → Except String Value)
    (fuel iters : Nat) (msgs : List MessageParam) (r : ApiResponse)
    (hm : model (iters + 1) = .ok r) (hc : continuesResponse r) :
    loopGo model exec (fuel + 1) iters msgs =
      loopGo model exec fuel (iters + 1)
        (msgs ++ [⟨.assistant, .blocks r.content⟩,
                  ⟨.user, .results (buildToolResults exec (collectToolUses r.content))⟩]) := by
  rw [loopGo, hm]
  dsimp only
  rw [if_neg (by simpa [List.isEmpty_iff] using hc.1)]
  rw [if_neg (by
    intro hand
    exact hc.2 ⟨hand.1, by simpa [List.isEmpty_iff] using hand.2⟩)]

/-- Running `n` continuing iterations in a row. -/
theorem loopGo_skip (model : Nat → ModelOutcome)
    (exec : String → ToolInput → Except String Value) :
    ∀ (n fuel iters : Nat) (msgs : List MessageParam), n ≤ fuel →
      (∀ j, iters < j → j ≤ iters + n → ∃ r, model j = .ok r ∧ continuesResponse r) →
      ∃ msgs2, loopGo model exec fuel iters msgs
        = loopGo model exec (fuel - n) (iters + n) msgs2 := by
  intro n
  induction n with
  | zero => intro fuel iters msgs _ _; exact ⟨msgs, by simp⟩
  | succ k ih =>
    intro fuel iters msgs hle h
    obtain ⟨f, rfl⟩ : ∃ f, fuel = f + 1 := ⟨fuel - 1, by omega⟩
    obtain ⟨r, hm, hc⟩ := h (iters + 1) (by omega) (by omega)
    rw [loopGo_step_continue model exec f iters msgs r hm hc]
    obtain ⟨msgs2, hms⟩ := ih f (iters + 1) _ (by omega)
      (fun j hj1 hj2 => h j (by omega) (by omega))
    refine ⟨msgs2, ?_⟩
    rw [hms]
    congr 1 <;> omega

/-- The post-loop result never exceeds the iteration cap. -/
theorem handleMessageLoop_iterations_le (model : Nat → ModelOutcome)
    (exec : String → ToolInput → Except String Value) (msgs : List MessageParam) :
    (handleMessageLoop model exec msgs).iterations ≤ 10 := by
  unfold handleMessageLoop
  split <;> simpa using loopGo_iterations_le model exec MAX_ITERATIONS 0 msgs

/-- C1 fails as stated: under `constToolModel` every model response requests
a tool invocation, yet the loop stops after the 1st iteration (the defensive
`end_turn`-with-text break fires after executing the tools) and the final
text is plain `"hi"`, without the maximum-iterations notice. -/
theorem loop_cap_counterexample :
    (∀ j, constToolModel j = ModelOutcome.ok toolAndTextResponse) ∧
    collectToolUses toolAndTextResponse.content ≠ [] ∧
    (handleMessageLoop constToolModel noopExec []).iterations = 1 ∧
    (handleMessageLoop constToolModel noopExec []).finalText = "hi" := by
  exact ⟨fun j => rfl, by decide, rfl, rfl⟩

/-- C1 amended: the loop performs at most 10 iterations (model calls) for
every sequence of model responses; and for any sequence of responses that
all keep requesting tool invocations and never trigger the defensive
`end_turn`-with-text break, the loop stops exactly after the 10th iteration
and the final output text is the "maximum iterations" notice. -/
theorem loop_cap_amended (model : Nat → ModelOutcome)
    (exec : String → ToolInput → Except String Value) (msgs : List MessageParam)
    (h : ∀ j, 0 < j → j ≤ 10 → ∃ r, model j = .ok r ∧ continuesResponse r) :
    (∀ (m : Nat → ModelOutcome) (e : String → ToolInput → Except String Value)
       (ms : List MessageParam), (handleMessageLoop m e ms).iterations ≤ 10) ∧
    (handleMessageLoop model exec msgs).iterations = 10 ∧
    (handleMessageLoop model exec msgs).finalText = maxIterationsNotice := by
  refine ⟨handleMessageLoop_iterations_le, ?_⟩
  obtain ⟨msgs2, hms⟩ := loopGo_skip model exec 10 10 0 msgs (by omega)
    (fun j hj1 hj2 => h j hj1 (by omega))
  have hrun : loopGo model exec MAX_ITERATIONS 0 msgs = ⟨10, "", msgs2⟩ := by
    rw [show MAX_ITERATIONS = 10 from rfl, hms]
    rfl
  unfold handleMessageLoop
  rw [hrun]
  simp [MAX_ITERATIONS, maxIterationsNotice]

/-- Witness for the C1 amended theorem under `alwaysToolModel`. -/
theorem loop_cap_amended_witness :
    (∀ (m : Nat → ModelOutcome) (e : String → ToolInput → Except String Value)
       (ms : List MessageParam), (handleMessageLoop m e ms).iterations ≤ 10) ∧
    (handleMessageLoop alwaysToolModel noopExec []).iterations = 10 ∧
    (handleMessageLoop alwaysToolModel noopExec []).finalText = maxIterationsNotice :=
  loop_cap_amended alwaysToolModel noopExec []
    (fun j _ _ => ⟨_, rfl, by decide, by decide⟩)

/-- C7: if the model call throws in any iteration, the loop does not retry
the call: it returns immediately from that iteration (the counter advances
exactly once, the transcript is unchanged), with the tailored too-long
message when the error text contains a known phrase and the generic
please-try-again message otherwise. -/
theorem model_error_no_retry (model : Nat → ModelOutcome)
    (exec : String → ToolInput → Except String Value)
    (fuel iters : Nat) (msgs : List MessageParam) (e : String)
    (h : model (iters + 1) = .err e) :
    loopGo model exec (fuel + 1) iters msgs =
      ⟨iters + 1,
       if strIncludes e "prompt is too long" || strIncludes e "max_tokens"
         then errTooLongText else errGenericText,
       msgs⟩ := by
  rw [loopGo, h]
  rfl

/-- Witness for the C7 theorem: a first-call context-length error yields the
tailored too-long message after exactly one iteration. -/
theorem model_error_no_retry_witness :
    loopGo errModel noopExec 10 0 [] = ⟨1, errTooLongText, []⟩ := by
  rw [model_error_no_retry errModel noopExec 9 0 []
    "Error: prompt is too long: 250000 tokens > 200000 maximum" rfl]
  rfl

/-- C3: in every loop iteration whose model response contains tool
invocations, the `tool_use_id`s of the built ToolResults are exactly the
invocation ids, in invocation order (so each invocation with id X yields
exactly one result with id X), and those results form the user-role turn
appended right after the assistant turn. -/
theorem tool_results_round_trip (model : Nat → ModelOutcome)
    (exec : String → ToolInput → Except String Value)
    (fuel iters : Nat) (msgs : List MessageParam) (r : ApiResponse)
    (hm : model (iters + 1) = .ok r)
    (hne : collectToolUses r.content ≠ []) :
    (buildToolResults exec (collectToolUses r.content)).map ToolResultB.tool_use_id
        = (collectToolUses r.content).map ToolUseB.id ∧
    ∃ tail, (loopGo model exec (fuel + 1) iters msgs).messages =
      msgs ++ MessageParam.mk .assistant (.blocks r.content) ::
        MessageParam.mk .user
          (.results (buildToolResults exec (collectToolUses r.content))) :: tail := by
  constructor
  · rw [buildToolResults, List.map_map]
    rfl
  · rw [loopGo, hm]
    dsimp only
    rw [if_neg (by simpa [List.isEmpty_iff] using hne)]
    split
    · exact ⟨[], rfl⟩
    · obtain ⟨t, ht⟩ := loopGo_messages_grow model exec fuel (iters + 1)
        (msgs ++ [⟨.assistant, .blocks r.content⟩,
                  ⟨.user, .results (buildToolResults exec (collectToolUses r.content))⟩])
      exact ⟨t, by rw [ht]; simp⟩

/-- Witness for the C3 theorem: one iteration of `alwaysToolModel`. -/
theorem tool_results_round_trip_witness :
    (buildToolResults noopExec
        (collectToolUses [ContentBlock.toolUse "toolu_1" "check_stock" []])).map
          ToolResultB.tool_use_id
        = (collectToolUses [ContentBlock.toolUse "toolu_1" "check_stock" []]).map
            ToolUseB.id ∧
    ∃ tail, (loopGo alwaysToolModel noopExec 10 0 []).messages =
      [] ++ MessageParam.mk .assistant
          (.blocks [ContentBlock.toolUse "toolu_1" "check_stock" []]) ::
        MessageParam.mk .user
          (.results (buildToolResults noopExec
            (collectToolUses [ContentBlock.toolUse "toolu_1" "check_stock" []]))) :: tail :=
  tool_results_round_trip alwaysToolModel noopExec 9 0 []
    ⟨[ContentBlock.toolUse "toolu_1" "check_stock" []], .toolUse⟩ rfl (by decide)

/-- C10: when the first nine responses keep the loop going and the 10th
response contains no tool_use blocks (a clean text-only finish on the last
allowed iteration), the returned text still gets the maximum-iterations
notice appended, because the post-loop check tests only the counter. -/
theorem cap_notice_appended_on_clean_tenth (model : Nat → ModelOutcome)
    (exec : String → ToolInput → Except String Value) (msgs : List MessageParam)
    (h9 : ∀ j, 0 < j → j < 10 → ∃ r, model j = .ok r ∧ continuesResponse r)
    (r10 : ApiResponse) (h10 : model 10 = .ok r10)
    (hno : collectToolUses r10.content = []) :
    (handleMessageLoop model exec msgs).iterations = 10 ∧
    (handleMessageLoop model exec msgs).finalText
      = String.intercalate "\n" (collectTexts r10.content) ++ maxIterationsNotice := by
  obtain ⟨msgs2, hms⟩ := loopGo_skip model exec 9 10 0 msgs (by omega)
    (fun j hj1 hj2 => h9 j hj1 (by omega))
  have hlast : loopGo model exec 1 9 msgs2 =
      ⟨10, String.intercalate "\n" (collectTexts r10.content), msgs2⟩ := by
    rw [loopGo, h10]
    dsimp only
    rw [if_pos (by simpa [List.isEmpty_iff] using hno)]
  have hrun : loopGo model exec MAX_ITERATIONS 0 msgs =
      ⟨10, String.intercalate "\n" (collectTexts r10.content), msgs2⟩ := by
    rw [show MAX_ITERATIONS = 10 from rfl, hms]
    exact hlast
  unfold handleMessageLoop
  rw [hrun]
  simp [MAX_ITERATIONS]

/-- Witness for the C10 theorem under `nineThenDoneModel`. -/
theorem cap_notice_appended_on_clean_tenth_witness :
    (handleMessageLoop nineThenDoneModel noopExec []).iterations = 10 ∧
    (handleMessageLoop nineThenDoneModel noopExec []).finalText
      = String.intercalate "\n" (collectTexts [ContentBlock.text "done"])
          ++ maxIterationsNotice := by
  refine cap_notice_appended_on_clean_tenth nineThenDoneModel noopExec []
    (fun j hj1 hj2 => ⟨⟨[.toolUse "toolu_1" "check_stock" []], .toolUse⟩,
      by simp [nineThenDoneModel, hj2], by decide, by decide⟩)
    ⟨[ContentBlock.text "done"], .endTurn⟩ (by simp [nineThenDoneModel]) (by decide)

/- == Selector lemmas ==================================================== -/
theorem containsName_iff {sel : List ToolDef} {n : String} :
    containsName sel n = true ↔ n ∈ sel.map ToolDef.name := by
  unfold containsName
  rw [List.any_eq_true]
  constructor
  · rintro ⟨t, ht, hbeq⟩
    exact List.mem_map.mpr ⟨t, ht, beq_iff_eq.mp hbeq⟩
  · intro h
    obtain ⟨t, ht, rfl⟩ := List.mem_map.mp h
    exact ⟨t, ht, beq_iff_eq.mpr rfl⟩

/-- A map set either overwrites in place (names unchanged) or appends. -/
theorem mapSet_names (sel : List ToolDef) (t : ToolDef) :
    (mapSet sel t).map ToolDef.name = sel.map ToolDef.name ∨
    (mapSet sel t).map ToolDef.name = sel.map ToolDef.name ++ [t.name] := by
  unfold mapSet
  split
  · left
    rw [List.map_map]
    refine List.map_congr_left fun s _ => ?_
    by_cases h : s.name = t.name
    · simp [Function.comp, h]
    · simp [Function.comp, h]
  · right
    simp

theorem mapSet_length_le (sel : List ToolDef) (t : ToolDef) :
    (mapSet sel t).length ≤ sel.length + 1 := by
  unfold mapSet
  split <;> simp

theorem containsName_mapSet_of {sel : List ToolDef} {n : String} (t : ToolDef)
    (h : containsName sel n = true) : containsName (mapSet sel t) n = true := by
  rw [containsName_iff] at h ⊢
  rcases mapSet_names sel t with hs | hs <;> rw [hs] <;> simp [h]

theorem containsName_mapSet_self (sel : List ToolDef) (t : ToolDef) :
    containsName (mapSet sel t) t.name = true := by
  by_cases h : containsName sel t.name = true
  · exact containsName_mapSet_of t h
  · rw [containsName_iff]
    rcases mapSet_names sel t with hs | hs <;> rw [hs]
    · exfalso
      apply h
      rw [containsName_iff]
      have : t.name ∈ (mapSet sel t).map ToolDef.name := by
        unfold mapSet
        rw [if_neg h]
        simp
      rwa [hs] at this
    · simp

theorem foldl_mapSet_contains (l : List ToolDef) :
    ∀ (sel : List ToolDef) (n : String),
      (containsName sel n = true ∨ ∃ t ∈ l, t.name = n) →
      containsName (l.foldl mapSet sel) n = true := by
  induction l with
  | nil =>
    intro sel n h
    simpa using h.resolve_right (by simp)
  | cons a l ih =>
    intro sel n h
    simp only [List.foldl_cons]
    rcases h with h | ⟨t, ht, hn⟩
    · exact ih (mapSet sel a) n (Or.inl (containsName_mapSet_of a h))
    · rcases List.mem_cons.mp ht with rfl | htl
      · subst hn
        exact ih (mapSet sel t) t.name (Or.inl (containsName_mapSet_self sel t))
      · exact ih (mapSet sel a) n (Or.inr ⟨t, htl, hn⟩)

theorem foldl_mapSet_length (l : List ToolDef) :
    ∀ sel : List ToolDef, (l.foldl mapSet sel).length ≤ sel.length + l.length := by
  induction l with
  | nil => intro sel; simp
  | cons a l ih =>
    intro sel
    simp only [List.foldl_cons, List.length_cons]
    calc (l.foldl mapSet (mapSet sel a)).length
        ≤ (mapSet sel a).length + l.length := ih (mapSet sel a)
      _ ≤ (sel.length + 1) + l.length := by
          have := mapSet_length_le sel a
          omega
      _ = sel.length + (l.length + 1) := by omega

theorem addCapped_contains {sel : List ToolDef} {n : String}
    (ts : List ToolDef) (h : containsName sel n = true) :
    containsName (addCapped sel ts) n = true := by
  induction ts generalizing sel with
  | nil => simpa [addCapped] using h
  | cons t ts ih =>
    unfold addCapped
    simp only [List.foldl_cons]
    split
    · exact ih h
    · exact ih (containsName_mapSet_of t h)

theorem addCapped_length (sel : List ToolDef) (ts : List ToolDef) :
    (addCapped sel ts).length ≤ max sel.length MAX_TOOLS := by
  induction ts generalizing sel with
  | nil => simp [addCapped]
  | cons t ts ih =>
    unfold addCapped
    simp only [List.foldl_cons]
    split
    · exact le_trans (ih sel) (le_refl _)
    · rename_i hlt
      refine le_trans (ih (mapSet sel t)) ?_
      have h1 := mapSet_length_le sel t
      simp only [MAX_TOOLS] at *
      omega

theorem foldl_addCapped_contains (f : String → List ToolDef) (hs : List String) :
    ∀ (sel : List ToolDef) (n : String), containsName sel n = true →
      containsName (hs.foldl (fun s x => addCapped s (f x)) sel) n = true := by
  induction hs with
  | nil => intro sel n h; simpa using h
  | cons x hs ih =>
    intro sel n h
    simp only [List.foldl_cons]
    exact ih (addCapped sel (f x)) n (addCapped_contains (f x) h)

theorem foldl_addCapped_length (f : String → List ToolDef) (hs : List String) :
    ∀ sel : List ToolDef,
      (hs.foldl (fun s x => addCapped s (f x)) sel).length ≤ max sel.length MAX_TOOLS := by
  induction hs with
  | nil => intro sel; simp
  | cons x hs ih =>
    intro sel
    simp only [List.foldl_cons]
    refine le_trans (ih (addCapped sel (f x))) ?_
    have := addCapped_length sel (f x)
    simp only [MAX_TOOLS] at *
    omega

/-- Generic selector bound: the result length never exceeds
`max (count of core tools) MAX_TOOLS`. -/
theorem selectTools_length_le (reg : List ToolDef) (text : String) :
    (selectTools reg text).length ≤ max (getCoreTools reg).length MAX_TOOLS := by
  unfold selectTools
  refine le_trans (foldl_addCapped_length _ _ _) ?_
  have h2 := foldl_addCapped_length (fun p => searchByPlatform reg p)
    (detectToolHints text).platforms ((getCoreTools reg).foldl mapSet [])
  have h3 := foldl_mapSet_length (getCoreTools reg) []
  simp only [List.length_nil] at h3
  simp only [MAX_TOOLS] at *
  omega

/-- Generic selector core containment: every core tool name appears in the
result. -/
theorem selectTools_contains_core (reg : List ToolDef) (text : String) :
    ∀ t ∈ getCoreTools reg, containsName (selectTools reg text) t.name = true := by
  intro t ht
  unfold selectTools
  refine foldl_addCapped_contains _ _ _ _ ?_
  refine foldl_addCapped_contains _ _ _ _ ?_
  exact foldl_mapSet_contains (getCoreTools reg) [] t.name (Or.inr ⟨t, ht, rfl⟩)

/-- C6 fails as stated: core tools are seeded without a cap check, so a
registry state with 51 core tools makes the selector return 51 tools,
exceeding the configured cap of 50. -/
theorem selector_cap_counterexample :
    (∀ t ∈ bigCoreRegistry, t.meta.core = true) ∧
    MAX_TOOLS = 50 ∧
    (selectTools bigCoreRegistry "").length = 51 := by
  refine ⟨by decide, rfl, by decide⟩

/-- C6 amended: for every registry state and message text, the selector
result contains every core tool (by name) and its length never exceeds
`max (number of core tools) 50`; only the core seeding can exceed the cap,
and the program's own registry (7 core tools out of 88) always stays within
the cap of 50. -/
theorem selector_core_and_cap (reg : List ToolDef) (text : String) :
    (∀ t ∈ getCoreTools reg, containsName (selectTools reg text) t.name = true) ∧
    (selectTools reg text).length ≤ max (getCoreTools reg).length MAX_TOOLS ∧
    ∀ text2, (selectTools flipAgentRegistry text2).length ≤ MAX_TOOLS := by
  refine ⟨selectTools_contains_core reg text, selectTools_length_le reg text,
    fun text2 => le_trans (selectTools_length_le flipAgentRegistry text2) ?_⟩
  have : (getCoreTools flipAgentRegistry).length = 7 := by decide
  rw [this]
  decide

/-- Witness for the C6 amended theorem on a concrete registry and message. -/
theorem selector_core_and_cap_witness :
    containsName (selectTools smallRegistry "hello") "tool_search" = true ∧
    (selectTools smallRegistry "hello").length
      ≤ max (getCoreTools smallRegistry).length MAX_TOOLS ∧
    (selectTools flipAgentRegistry "hello").length ≤ MAX_TOOLS := by
  have h := selector_core_and_cap smallRegistry "hello"
  exact ⟨h.1 { name := "tool_search", description := "", meta := ⟨none, none, true⟩ }
    (by decide), h.2.1, h.2.2 "hello"⟩

theorem foldl_mapSet_eq_append (l : List ToolDef) :
    ∀ acc : List ToolDef, (l.map ToolDef.name).Nodup →
      (∀ t ∈ l, containsName acc t.name = false) →
      l.foldl mapSet acc = acc ++ l := by
  induction l with
  | nil => intro acc _ _; simp
  | cons a l ih =>
    intro acc hnd hdisj
    simp only [List.foldl_cons]
    have hset : mapSet acc a = acc ++ [a] := by
      unfold mapSet
      rw [hdisj a (by simp)]
      simp
    rw [hset]
    have hnd2 : (l.map ToolDef.name).Nodup := by
      simp only [List.map_cons, List.nodup_cons] at hnd
      exact hnd.2
    have hna : a.name ∉ l.map ToolDef.name := by
      simp only [List.map_cons, List.nodup_cons] at hnd
      exact hnd.1
    have hdisj2 : ∀ t ∈ l, containsName (acc ++ [a]) t.name = false := by
      intro t ht
      have h1 : containsName acc t.name = false := hdisj t (by simp [ht])
      have h2 : t.name ≠ a.name := by
        intro he
        exact hna (he ▸ List.mem_map.mpr ⟨t, ht, rfl⟩)
      rw [← Bool.not_eq_true]
      intro hc
      have hmm : t.name ∈ acc.map ToolDef.name ++ [a].map ToolDef.name := by
        have := containsName_iff.mp (by simpa using hc)
        rwa [List.map_append] at this
      rcases List.mem_append.mp hmm with hm | hm
      · exact absurd (containsName_iff.mpr hm) (by simp [h1])
      · simp only [List.map_cons, List.map_nil, List.mem_singleton] at hm
        exact h2 hm
    rw [ih (acc ++ [a]) hnd2 hdisj2, List.append_assoc]
    rfl

/-- C9: on a registry with unique tool names (the registry invariant), a
message text with no platform and no category hints makes `selectTools`
return exactly the core tools in registration order; and the program's own
registry has a non-empty core set, so the result is never empty. -/
theorem selector_no_hints_returns_core (reg : List ToolDef) (text : String)
    (hnodup : (reg.map ToolDef.name).Nodup)
    (hhints : detectToolHints text = ⟨[], []⟩) :
    selectTools reg text = getCoreTools reg ∧
    getCoreTools flipAgentRegistry ≠ [] := by
  constructor
  · unfold selectTools
    rw [hhints]
    simp only [List.foldl_nil]
    have hndCore : ((getCoreTools reg).map ToolDef.name).Nodup :=
      hnodup.sublist ((List.filter_sublist reg).map ToolDef.name)
    have := foldl_mapSet_eq_append (getCoreTools reg) [] hndCore
      (fun t _ => by simp [containsName])
    simpa using this
  · decide

/-- Witness for the C9 theorem on a concrete registry and hint-free text. -/
theorem selector_no_hints_returns_core_witness :
    selectTools smallRegistry "zzz" = getCoreTools smallRegistry ∧
    getCoreTools flipAgentRegistry ≠ [] :=
  selector_no_hints_returns_core smallRegistry "zzz" (by decide) (by decide)

theorem exOk_bind {α β : Type} (x : Except String α) (f : α → Except String β)
    (hx : exOk x = true) (hf : ∀ a, exOk (f a) = true) :
    exOk (x >>= f) = true := by
  cases x with
  | ok a => exact hf a
  | error e => exact absurd hx (by simp [exOk])

theorem exOk_setupCase (store : String → Creds → Except String Unit)
    (platform : String) (credData : Creds) (okMsg : String)
    (hs : ∀ p c, exOk (store p c) = true) :
    exOk (setupCase store platform credData okMsg) = true :=
  exOk_bind _ _ (hs platform credData) fun _ => rfl

theorem exOk_scanCase (cred : Option Creds) (msg : String)
    (search : ToolInput → Except String (List Value))
    (store : List Value → Except String Unit) (input : ToolInput)
    (hs : ∀ i, exOk (search i) = true)
    (hst : ∀ rs, exOk (store rs) = true) :
    exOk (scanCase cred msg search store input) = true := by
  cases cred with
  | none => rfl
  | some c =>
    exact exOk_bind _ _ (hs input) fun rs => exOk_bind _ _ (hst rs) fun _ => rfl

/-- C2 fails as stated: `executeTool` has no top-level try/catch, so a
throwing delegated platform wrapper propagates out of `executeTool` (the
exception is caught only by the caller's try/catch inside the loop body):
with Amazon credentials present and an adapter whose search throws,
`executeTool` for `scan_amazon` raises instead of returning a payload. -/
theorem executor_throw_counterexample :
    executeTool throwingAmazonCtx "scan_amazon" [("query", "yoga mat")]
      = Except.error "network error: ECONNRESET" ∧
    exOk (executeTool throwingAmazonCtx "scan_amazon" [("query", "yoga mat")])
      = false := by
  exact ⟨rfl, rfl⟩

/-- C2 amended: when the delegated effects (credential-store writes, the
platform adapters, the database write, and the contract-level per-tool
handlers) do not throw, `executeTool` never throws for any tool name and
input; and for a name outside the 88 known cases it returns the
`Unknown tool` error payload unconditionally. -/
theorem executor_no_throw_amended (ctx : ExecCtx)
    (hset : ∀ p c, exOk (ctx.setCredentials p c) = true)
    (hdel : ∀ p, exOk (ctx.deleteCredentials p) = true)
    (hama : ∀ i, exOk (ctx.amazonSearch i) = true)
    (heba : ∀ i, exOk (ctx.ebaySearch i) = true)
    (hwal : ∀ i, exOk (ctx.walmartSearch i) = true)
    (hali : ∀ i, exOk (ctx.aliexpressSearch i) = true)
    (hsto : ∀ rs, exOk (ctx.storeResults rs) = true)
    (hhan : ∀ n i, exOk (ctx.handler n i) = true)
    (toolName : String) (input : ToolInput) :
    exOk (executeTool ctx toolName input) = true ∧
    (toolName ∉ knownToolNames →
      executeTool ctx toolName input = .ok (unknownToolPayload toolName)) := by
  constructor
  · unfold executeTool
    by_cases h1 : toolName = "tool_search"
    · rw [if_pos h1]
      rfl
    · rw [if_neg h1]
      by_cases h2 : toolName = "setup_amazon_credentials"
      · rw [if_pos h2]
        exact exOk_setupCase _ _ _ _ hset
      · rw [if_neg h2]
        by_cases h3 : toolName = "setup_ebay_credentials"
        · rw [if_pos h3]
          exact exOk_setupCase _ _ _ _ hset
        · rw [if_neg h3]
          by_cases h4 : toolName = "setup_walmart_credentials"
          · rw [if_pos h4]
            exact exOk_setupCase _ _ _ _ hset
          · rw [if_neg h4]
            by_cases h5 : toolName = "setup_aliexpress_credentials"
            · rw [if_pos h5]
              exact exOk_setupCase _ _ _ _ hset
            · rw [if_neg h5]
              by_cases h6 : toolName = "list_credentials"
              · rw [if_pos h6]
                rfl
              · rw [if_neg h6]
                by_cases h7 : toolName = "delete_credentials"
                · rw [if_pos h7]
                  exact exOk_bind _ _ (hdel _) fun _ => rfl
                · rw [if_neg h7]
                  by_cases h8 : toolName = "scan_amazon"
                  · rw [if_pos h8]
                    exact exOk_scanCase _ _ _ _ _ hama hsto
                  · rw [if_neg h8]
                    by_cases h9 : toolName = "scan_ebay"
                    · rw [if_pos h9]
                      exact exOk_scanCase _ _ _ _ _ heba hsto
                    · rw [if_neg h9]
                      by_cases h10 : toolName = "scan_walmart"
                      · rw [if_pos h10]
                        exact exOk_scanCase _ _ _ _ _ hwal hsto
                      · rw [if_neg h10]
                        by_cases h11 : toolName = "scan_aliexpress"
                        · rw [if_pos h11]
                          exact exOk_scanCase _ _ _ _ _ hali hsto
                        · rw [if_neg h11]
                          by_cases h12 : toolName ∈ handlerToolNames
                          · rw [if_pos h12]
                            exact hhan _ _
                          · rw [if_neg h12]
                            rfl
  · intro hmem
    unfold executeTool
    by_cases h1 : toolName = "tool_search"
    · rw [if_pos h1]
      subst h1
      exact absurd (by decide) hmem
    · rw [if_neg h1]
      by_cases h2 : toolName = "setup_amazon_credentials"
      · rw [if_pos h2]
        subst h2
        exact absurd (by decide) hmem
      · rw [if_neg h2]
        by_cases h3 : toolName = "setup_ebay_credentials"
        · rw [if_pos h3]
          subst h3
          exact absurd (by decide) hmem
        · rw [if_neg h3]
          by_cases h4 : toolName = "setup_walmart_credentials"
          · rw [if_pos h4]
            subst h4
            exact absurd (by decide) hmem
          · rw [if_neg h4]
            by_cases h5 : toolName = "setup_aliexpress_credentials"
            · rw [if_pos h5]
              subst h5
              exact absurd (by decide) hmem
            · rw [if_neg h5]
              by_cases h6 : toolName = "list_credentials"
              · rw [if_pos h6]
                subst h6
                exact absurd (by decide) hmem
              · rw [if_neg h6]
                by_cases h7 : toolName = "delete_credentials"
                · rw [if_pos h7]
                  subst h7
                  exact absurd (by decide) hmem
                · rw [if_neg h7]
                  by_cases h8 : toolName = "scan_amazon"
                  · rw [if_pos h8]
                    subst h8
                    exact absurd (by decide) hmem
                  · rw [if_neg h8]
                    by_cases h9 : toolName = "scan_ebay"
                    · rw [if_pos h9]
                      subst h9
                      exact absurd (by decide) hmem
                    · rw [if_neg h9]
                      by_cases h10 : toolName = "scan_walmart"
                      · rw [if_pos h10]
                        subst h10
                        exact absurd (by decide) hmem
                      · rw [if_neg h10]
                        by_cases h11 : toolName = "scan_aliexpress"
                        · rw [if_pos h11]
                          subst h11
                          exact absurd (by decide) hmem
                        · rw [if_neg h11]
                          by_cases h12 : toolName ∈ handlerToolNames
                          · rw [if_pos h12]
                            exact absurd (List.mem_append.mpr (Or.inr h12)) hmem
                          · rw [if_neg h12]

/-- Witness for the C2 amended theorem at a concrete context and an
unregistered tool name. -/
theorem executor_no_throw_amended_witness :
    exOk (executeTool totalOkCtx "frobnicate" []) = true ∧
    ("frobnicate" ∉ knownToolNames →
      executeTool totalOkCtx "frobnicate" []
        = .ok (unknownToolPayload "frobnicate")) :=
  executor_no_throw_amended totalOkCtx (fun _p _c => rfl) (fun _p => rfl)
    (fun _i1 => rfl) (fun _i2 => rfl) (fun _i3 => rfl) (fun _i4 => rfl)
    (fun _rs => rfl) (fun _n _i5 => rfl) "frobnicate" []

/-- Reduction of the `scan_amazon` case of the dispatch. -/
theorem executeTool_scan_amazon (ctx : ExecCtx) (input : ToolInput) :
    executeTool ctx "scan_amazon" input =
      scanCase (getUserCreds ctx).amazon
        "Amazon credentials not configured. Use setup_amazon_credentials first."
        ctx.amazonSearch ctx.storeResults input := rfl

/-- C8: with no Amazon credentials stored, `scan_amazon` returns the
structured not-configured error payload without raising; and the result is
the same for every Amazon adapter and database oracle, i.e. the platform
adapter is never consulted. -/
theorem scan_amazon_not_configured (ctx : ExecCtx) (input : ToolInput)
    (h : ctx.getCredentials "amazon" = none) :
    executeTool ctx "scan_amazon" input
      = .ok (credsErrorPayload
          "Amazon credentials not configured. Use setup_amazon_credentials first.") ∧
    ∀ (search2 : ToolInput → Except String (List Value))
      (store2 : List Value → Except String Unit),
      executeTool { ctx with amazonSearch := search2, storeResults := store2 }
          "scan_amazon" input
        = .ok (credsErrorPayload
            "Amazon credentials not configured. Use setup_amazon_credentials first.") := by
  have key : ∀ ctx2 : ExecCtx, ctx2.getCredentials "amazon" = none →
      executeTool ctx2 "scan_amazon" input
        = .ok (credsErrorPayload
            "Amazon credentials not configured. Use setup_amazon_credentials first.") := by
    intro ctx2 h2
    rw [executeTool_scan_amazon ctx2 input,
      show (getUserCreds ctx2).amazon = none from h2]
    rfl
  exact ⟨key ctx h, fun search2 store2 => key _ h⟩

/-- Witness for the C8 theorem at a concrete credential-free context. -/
theorem scan_amazon_not_configured_witness :
    executeTool totalOkCtx "scan_amazon" [("query", "yoga mat")]
      = .ok (credsErrorPayload
          "Amazon credentials not configured. Use setup_amazon_credentials first.") ∧
    ∀ (search2 : ToolInput → Except String (List Value))
      (store2 : List Value → Except String Unit),
      executeTool { totalOkCtx with amazonSearch := search2, storeResults := store2 }
          "scan_amazon" [("query", "yoga mat")]
        = .ok (credsErrorPayload
            "Amazon credentials not configured. Use setup_amazon_credentials first.") :=
  scan_amazon_not_configured totalOkCtx [("query", "yoga mat")] rfl
